import Mathlib

/-!
Verification development for the LuminanceHDR sample sources:
* `src/Threads/pattanaik00Thread.cpp` — the cancellable computation wrapper
  `Pattanaik00Thread` (constructor, `run`, destructor, static `counter`);
* `src/TonemappingOperators/mantiuk08/display_adaptive_tmo.h` — declarations
  of the display-adaptive tone-mapping core (`datmoToneCurve`,
  `datmo_compute_conditional_density`, `datmo_compute_tone_curve`,
  `datmo_apply_tone_curve_cc`, `DATMO_TF_TAPSIZE`).

The wrapper is embedded directly from the C++ source.  The datmo core is
declared but not implemented under `src/`, so those operations are modelled
from the specification text (each such definition says so in its doc
comment).  Numeric values are rationals; pixel and luminance quantities of
the tone-mapping core live in the log10 domain, matching the spec, which
states tone curves in `log10` coordinates.
-/

namespace Pattanaik

/-- A pfs frame, abstracted to its payload.  `pfscopy` produces a frame with
the same payload in fresh storage, which in this shallow embedding is a
value-equal frame held in a separate field of the memory model. -/
structure Frame where
  data : List ℚ
deriving DecidableEq, Repr

/-- Embeds `pfscopy(frame)` from the constructor: a deep copy of the frame. -/
def pfscopy (f : Frame) : Frame := ⟨f.data⟩

/-- Exceptions that a stage called from `Pattanaik00Thread::run` may raise:
a `pfs::Exception` carrying a message, or any other exception (caught by the
`catch(...)` clause). -/
inductive Exc where
  | pfsExc (msg : String)
  | otherExc
deriving DecidableEq, Repr

/-- Qt signals emitted by `Pattanaik00Thread::run` that cross the wrapper
boundary (`setMaximumSteps`, `tmo_error`, `imageComputed`, `finished`). -/
inductive Signal where
  | setMaximumSteps (n : ℕ)
  | tmo_error (msg : String)
  | imageComputed
  | finished
deriving DecidableEq, Repr

/-- Options relevant to `run`: `opts.pregamma` and `opts.xsize`
(the pattanaik-specific options are folded into the abstract stage
behaviour). -/
structure Options where
  pregamma : ℚ
  xsize : ℤ
deriving DecidableEq, Repr

/-- Behaviour of the external routines invoked by the wrapper.  Their code is
not part of the two source files (they are declared `extern` at the top of
`pattanaik00Thread.cpp`), so `run` is verified for every possible behaviour:
each stage transforms the working frame and may raise an exception. -/
structure Stages where
  applyGammaOnFrame : ℚ → Frame → Except Exc Frame
  resizeFrame : Frame → ℤ → Except Exc Frame
  pfstmo_pattanaik00 : Frame → Except Exc Frame
  fromLDRPFStoQImage : Frame → Except Exc Frame
  transformColorSpace : Frame → Frame

/-- Memory visible to the wrapper: the caller-owned input frame and the
wrapper's private working frame. -/
structure Mem where
  callerFrame : Frame
  workingFrame : Frame
deriving DecidableEq, Repr

/-- Outcome of one execution of `run`: the signals emitted in order, the
exception that escaped `run` (if any), and whether the working frame was
released by `pfsio.freeFrame`. -/
structure RunResult where
  emitted : List Signal
  escaped : Option Exc
  frameFreed : Bool
deriving DecidableEq, Repr

/-- Embeds the constructor `Pattanaik00Thread::Pattanaik00Thread`:
`workingframe = pfscopy(frame)`, then `counter++` (tracked separately by
`counterStep`), then `pfs::transformColorSpace` applied to the working
frame's channels.  The caller's frame is only read, never written. -/
def construct (st : Stages) (caller : Frame) : Mem :=
  { callerFrame := caller, workingFrame := st.transformColorSpace (pfscopy caller) }

/-- Embeds lines 59–61 of `run`:
`if (opts.pregamma != 1.0f) applyGammaOnFrame(workingframe, opts.pregamma);`.
This call is outside the `try` block, so an exception here escapes. -/
def pregammaStage (st : Stages) (opts : Options) (f : Frame) : Except Exc Frame :=
  if opts.pregamma ≠ 1 then st.applyGammaOnFrame opts.pregamma f else Except.ok f

/-- Embeds lines 63–67 of `run`: resize the working frame when
`opts.xsize != originalxsize` (the old frame is freed and replaced). -/
def resizeStage (st : Stages) (opts : Options) (originalxsize : ℤ) (f : Frame) :
    Except Exc Frame :=
  if opts.xsize ≠ originalxsize then st.resizeFrame f opts.xsize else Except.ok f

/-- Embeds `Pattanaik00Thread::run` (lines 57–97).  `term` is the value the
`ph->isTerminationRequested()` poll at line 92 observes.  The pregamma,
resize and LDR-conversion calls sit outside the `try` block in the source,
so their exceptions escape; only `pfstmo_pattanaik00` is guarded by the two
catch clauses, which free the frame, emit `tmo_error` and return. -/
def run (st : Stages) (opts : Options) (originalxsize : ℤ) (term : Bool) (m : Mem) :
    Mem × RunResult :=
  match pregammaStage st opts m.workingFrame with
  | Except.error e => ({ m with workingFrame := m.workingFrame },
      { emitted := [], escaped := some e, frameFreed := false })
  | Except.ok f1 =>
    match resizeStage st opts originalxsize f1 with
    | Except.error e => ({ m with workingFrame := f1 },
        { emitted := [], escaped := some e, frameFreed := false })
    | Except.ok f2 =>
      match st.pfstmo_pattanaik00 f2 with
      | Except.error (Exc.pfsExc msg) => ({ m with workingFrame := f2 },
          { emitted := [Signal.setMaximumSteps 100, Signal.tmo_error msg],
            escaped := none, frameFreed := true })
      | Except.error Exc.otherExc => ({ m with workingFrame := f2 },
          { emitted := [Signal.setMaximumSteps 100,
              Signal.tmo_error ("Failed to tonemap image")],
            escaped := none, frameFreed := true })
      | Except.ok f3 =>
        match st.fromLDRPFStoQImage f3 with
        | Except.error e => ({ m with workingFrame := f3 },
            { emitted := [Signal.setMaximumSteps 100], escaped := some e,
              frameFreed := false })
        | Except.ok _res =>
          if term then
            ({ m with workingFrame := f3 },
              { emitted := [Signal.setMaximumSteps 100], escaped := none,
                frameFreed := true })
          else
            ({ m with workingFrame := f3 },
              { emitted := [Signal.setMaximumSteps 100, Signal.imageComputed,
                  Signal.finished],
                escaped := none, frameFreed := true })

/-- Lifecycle events of `Pattanaik00Thread` objects that can touch the static
`counter`. -/
inductive Event where
  | construct
  | destruct
deriving DecidableEq, Repr

/-- Effect of one lifecycle event on the static `counter`: the constructor
executes `counter++` (line 44); the destructor (lines 53–55) only deletes
`ph` and leaves `counter` unchanged. -/
def counterStep (c : ℕ) : Event → ℕ
  | Event.construct => c + 1
  | Event.destruct => c

/-- Value of the static `counter` after a sequence of lifecycle events,
starting from its initializer `int Pattanaik00Thread::counter = 0;`. -/
def counterAfter (evs : List Event) : ℕ := evs.foldl counterStep 0

/-- Number of live (constructed and not yet destructed) objects after a
sequence of lifecycle events. -/
def liveAfter (evs : List Event) : ℤ :=
  (evs.filter (fun e => e = Event.construct)).length -
    (evs.filter (fun e => e = Event.destruct)).length

end Pattanaik

namespace Datmo

/-- The constant `DATMO_TF_TAPSIZE` from `display_adaptive_tmo.h` line 168:
the number of samples required for the temporal filter. -/
def DATMO_TF_TAPSIZE : ℕ := 26

/-- Modelled from the spec: the `DisplayFunction` implementation
(`display_function.h`) is not under `src/`.  Per §3 it carries the display's
black level and maximum luminance, which bound any produced ToneCurve; the
curve claims are stated in the log10 domain, so the model carries
`l_black = log10(black_level)` and `l_max = log10(max_luminance)`. -/
structure DisplayFunction where
  l_black : ℚ
  l_max : ℚ
deriving DecidableEq, Repr

/-- Modelled from the spec: the `DisplaySize` implementation
(`display_size.h`) is not under `src/`.  Per §3/§4.2 it yields a
pixels-per-degree value feeding a contrast-sensitivity weighting used by the
optimizer; the model carries that weight directly. -/
structure DisplaySize where
  csfWeight : ℚ
deriving DecidableEq, Repr

/-- Modelled from the spec: the `pfs::Progress` implementation is not under
`src/`.  Per §3 it is a cancellable handle polled cooperatively; the model
records the poll index at which a termination request becomes visible
(`none` = never cancelled). -/
structure Progress where
  cancelledAtPoll : Option ℕ
deriving DecidableEq, Repr

/-- Whether the `k`-th cooperative cancellation poll observes a termination
request. -/
def cancelledAt (p : Progress) (k : ℕ) : Bool :=
  match p.cancelledAtPoll with
  | none => false
  | some c => c ≤ k

/-- Modelled from the spec: the `datmoConditionalDensity` implementation is
not under `src/` (only the class declaration is).  Per §3 it is an immutable
statistical summary: a histogram accumulated per scale, together with the
observed log-luminance range (`lMin`, knot spacing `delta`) that the
optimizer discretizes. -/
structure datmoConditionalDensity where
  hist : List ℚ
  lMin : ℚ
  delta : ℚ
deriving DecidableEq, Repr

/-- Result of the conditional-density estimator: per §4.1 its contract is
`estimate(...) -> ConditionalDensity | ABORTED` and nothing else. -/
inductive EstimateResult where
  | ok (d : datmoConditionalDensity)
  | aborted
deriving DecidableEq, Repr

/-- Pointwise accumulation of one scale's histogram contribution into the
running histogram. -/
def addHist (acc contrib : List ℚ) : List ℚ :=
  if acc = [] then contrib else List.zipWith (· + ·) acc contrib

/-- Modelled from the spec: the loop body of
`datmo_compute_conditional_density` is not under `src/`.  Per §4.1 the
estimator walks the pyramid scale by scale; after each scale it polls
`progress` and returns ABORTED immediately when cancellation was requested,
otherwise it accumulates that scale's histogram.  `remaining` counts the
scales still to process, `s` is the current scale index. -/
def estimateAux (contrib : ℕ → List ℚ) (p : Progress) (lMin delta : ℚ) :
    ℕ → ℕ → List ℚ → EstimateResult
  | 0, _, acc => EstimateResult.ok ⟨acc, lMin, delta⟩
  | remaining + 1, s, acc =>
    if cancelledAt p s then EstimateResult.aborted
    else estimateAux contrib p lMin delta remaining (s + 1) (addHist acc (contrib s))

/-- Modelled from the spec: `datmo_compute_conditional_density`
(declared at `display_adaptive_tmo.h:82`, implementation not under `src/`).
`nScales` is the pyramid depth; `contrib s` is the histogram contribution of
scale `s` (a pure function of the image, per §4.1 determinism); `lMin` and
`delta` describe the observed log-luminance range recorded in the density. -/
def datmo_compute_conditional_density (nScales : ℕ) (contrib : ℕ → List ℚ)
    (lMin delta : ℚ) (p : Progress) : EstimateResult :=
  estimateAux contrib p lMin delta nScales 0 []

/-- The fully constructed density: every scale's contribution accumulated.
Used to state that an OK result is never partial. -/
def fullDensity (nScales : ℕ) (contrib : ℕ → List ℚ) (lMin delta : ℚ) :
    datmoConditionalDensity :=
  ⟨(List.range nScales).foldl (fun acc s => addHist acc (contrib s)) [], lMin, delta⟩

/-- The tone curve `datmoToneCurve` from `display_adaptive_tmo.h:43`:
knot abscissae `x_i` (log10 input luminance) and ordinates `y_i`
(log10 output luminance). -/
structure datmoToneCurve where
  x_i : List ℚ
  y_i : List ℚ
deriving DecidableEq, Repr

/-- Result of `datmo_compute_tone_curve`: `PFSTMO_OK` with the populated
curve, `PFSTMO_ABORTED`, or `PFSTMO_ERROR` (header lines 101–103). -/
inductive TmoResult where
  | ok (tc : datmoToneCurve)
  | aborted
  | error
deriving DecidableEq, Repr

/-- The uniform knot grid: `x_i = lMin + i·delta` for `i < n`
(§4.3: discretize the observed log-luminance range into N knots). -/
def knotX (lMin delta : ℚ) (n : ℕ) : List ℚ :=
  (List.range n).map (fun i : ℕ => lMin + (i : ℚ) * delta)

/-- Modelled from the spec (§4.3): the raw per-segment slope demanded by the
conditional density, weighted by the contrast-sensitivity weight from
`DisplaySize` and the `enhancement` factor, then clamped to satisfy the
monotonicity constraint `slope ≥ 0`. -/
def rawSlopes (cd : datmoConditionalDensity) (ds : DisplaySize) (enh : ℚ) : List ℚ :=
  cd.hist.map (fun h => max 0 (enh * ds.csfWeight * h))

/-- Modelled from the spec (§4.3, constraint (ii)): scale the slopes so the
cumulative rise `delta · Σ s_i` does not exceed the display's usable
log-luminance budget `B`. -/
def scaleSlopes (ss : List ℚ) (delta B : ℚ) : List ℚ :=
  let T := delta * ss.sum
  if T ≤ B then ss else ss.map (fun s => s * (B / T))

/-- Cumulative sums: `cumsumFrom y0 [r0, r1, …] = [y0, y0+r0, y0+r0+r1, …]`.
Builds the knot ordinates from the base value and the per-segment rises. -/
def cumsumFrom (y0 : ℚ) : List ℚ → List ℚ
  | [] => [y0]
  | r :: rest => y0 :: cumsumFrom (y0 + r) rest

/-- Index of the knot whose abscissa is nearest to `t` (first on ties). -/
def nearestIdx (xs : List ℚ) (t : ℚ) : ℕ :=
  (((List.range xs.length).argmin (fun i => |xs.getD i 0 - t|)).getD 0)

/-- Walks the ordinates with their index `i`: from the anchored knot `k`
onwards every ordinate saturates at `lmax`; before it, ordinates are kept
below `lmax`. -/
def anchorGo (k : ℕ) (lmax : ℚ) : ℕ → List ℚ → List ℚ
  | _, [] => []
  | i, y :: rest => (if k ≤ i then lmax else min y lmax) :: anchorGo k lmax (i + 1) rest

/-- Modelled from the spec (§4.3, constraint (iii)): the anchor constraint
pins the knot nearest the white point to the display's maximum log
luminance; the solver's output stays monotone, so knots after the anchor
saturate at `lmax` and knots before it stay below it. -/
def applyAnchor (xs ys : List ℚ) (t lmax : ℚ) : List ℚ :=
  anchorGo (nearestIdx xs t) lmax 0 ys

/-- Modelled from the spec: the body of the optimizer without the anchor
step — grid, clamped slopes, budget scaling, cumulative sums starting at the
display's black level. -/
def unanchoredCurve (cd : datmoConditionalDensity) (df : DisplayFunction)
    (ds : DisplaySize) (enh : ℚ) : datmoToneCurve :=
  let n := cd.hist.length + 1
  let xs := knotX cd.lMin cd.delta n
  let ss := scaleSlopes (rawSlopes cd ds enh) cd.delta (df.l_max - df.l_black)
  let ys := cumsumFrom df.l_black (ss.map (fun s => s * cd.delta))
  ⟨xs, ys⟩

/-- Modelled from the spec: `datmo_compute_tone_curve` (declared at
`display_adaptive_tmo.h:105`, implementation not under `src/`).  Per §4.3 it
returns ABORTED on a cancellation poll, ERROR on a degenerate system
(here: non-positive knot spacing or a display whose usable log-luminance
range is negative), and otherwise OK with a populated monotone curve.
`white_y = -1` (header line 97–99) disables the white anchor; otherwise the
knot nearest `log10(white_y)` — `lg` is the log10 map — is pinned to the
display's maximum log luminance. -/
def datmo_compute_tone_curve (cd : datmoConditionalDensity) (df : DisplayFunction)
    (ds : DisplaySize) (enh : ℚ) (white_y : ℚ) (lg : ℚ → ℚ) (p : Progress) : TmoResult :=
  if cancelledAt p 0 then TmoResult.aborted
  else if cd.delta ≤ 0 ∨ df.l_max < df.l_black then TmoResult.error
  else if white_y = -1 then TmoResult.ok (unanchoredCurve cd df ds enh)
  else TmoResult.ok ⟨(unanchoredCurve cd df ds enh).x_i,
    applyAnchor (unanchoredCurve cd df ds enh).x_i
      (unanchoredCurve cd df ds enh).y_i (lg white_y) df.l_max⟩

/-- Per-pixel channel data in the log10 domain: `r`, `g`, `b` are the log10
channel radiances and `l` the log10 luminance, so that the power-law chroma
scaling of the applicator becomes linear and chroma ratios become
differences. -/
structure PixelLog where
  r : ℚ
  g : ℚ
  b : ℚ
  l : ℚ
deriving DecidableEq, Repr

/-- Monotone linear interpolation between bracketing knots with clamping at
both ends (§4.4: values below `x_0` clamp to `y_0`, values above `x_{N-1}`
clamp to `y_{N-1}`, never extrapolate). -/
def interpKnots : List (ℚ × ℚ) → ℚ → ℚ
  | [], _ => 0
  | [kn] , _ => kn.2
  | kn1 :: kn2 :: rest, x =>
    if x ≤ kn1.1 then kn1.2
    else if x ≤ kn2.1 then
      kn1.2 + (kn2.2 - kn1.2) * (x - kn1.1) / (kn2.1 - kn1.1)
    else interpKnots (kn2 :: rest) x

/-- Evaluate a tone curve at a log10 luminance value. -/
def toneCurveEval (tc : datmoToneCurve) (x : ℚ) : ℚ :=
  interpKnots (tc.x_i.zip tc.y_i) x

/-- Modelled from the spec: `datmo_apply_tone_curve_cc` (declared at
`display_adaptive_tmo.h:164`, implementation not under `src/`), per pixel in
the log10 domain.  Per §4.4, each channel's deviation from the luminance is
scaled by the saturation factor and added to the tone-mapped luminance; the
header (line 159) documents `saturation_factor = 1` as preserving colors. -/
def datmo_apply_tone_curve_cc (tc : datmoToneCurve) (saturation_factor : ℚ)
    (px : PixelLog) : PixelLog :=
  let lOut := toneCurveEval tc px.l
  { r := saturation_factor * (px.r - px.l) + lOut
    g := saturation_factor * (px.g - px.l) + lOut
    b := saturation_factor * (px.b - px.l) + lOut
    l := lOut }

/-- Modelled from the spec: the temporal coherence filter state
(§4.5) — a sliding window of the most recent per-frame tone-curve ordinate
vectors, newest first, all on a common knot grid. -/
structure TemporalFilter where
  window : List (List ℚ)
deriving DecidableEq, Repr

/-- Modelled from the spec (§4.5): pushing a new frame's curve into the
window keeps only the `DATMO_TF_TAPSIZE` most recent curves. -/
def tfPush (st : TemporalFilter) (c : List ℚ) : TemporalFilter :=
  ⟨(c :: st.window).take DATMO_TF_TAPSIZE⟩

/-- Knot-wise weighted sum `Σ_i w i · cs_i` of a list of curves sharing a
knot grid. -/
def weightedSum (w : ℕ → ℚ) : ℕ → List (List ℚ) → List ℚ
  | _, [] => []
  | i, [c] => c.map (fun y => w i * y)
  | i, c :: c2 :: rest =>
      List.zipWith (· + ·) (c.map (fun y => w i * y)) (weightedSum w (i + 1) (c2 :: rest))

/-- Modelled from the spec (§4.5): `smooth` output — the finite-length
weighted average across the window's curves, knot by knot, with weights
renormalized over only the `k` curves actually present (the denominator is
the sum of the weights of the available frames, never the full-window
weight sum). -/
def tfSmooth (w : ℕ → ℚ) (st : TemporalFilter) : List ℚ :=
  let k := st.window.length
  let W := ((List.range k).map w).sum
  (weightedSum w 0 st.window).map (fun y => y / W)

end Datmo

section PattanaikTheorems

open Pattanaik

/-- Helper: `run` threads the caller's frame through every branch
unchanged. -/
theorem run_callerFrame_eq (st : Stages) (opts : Options) (oxs : ℤ) (term : Bool)
    (m : Mem) : ((run st opts oxs term m).1).callerFrame = m.callerFrame := by
  unfold run
  repeat' split
  all_goals rfl

/-- C8: constructing the wrapper copies the caller's input frame into the
private working frame (a value-equal copy, transformed to XYZ in place), and
neither the constructor nor any branch of `run` ever mutates the caller's
original frame. -/
theorem construct_copies_and_caller_frame_never_mutated (st : Stages)
    (caller : Frame) (opts : Options) (oxs : ℤ) (term : Bool) :
    (construct st caller).callerFrame = caller ∧
    (construct st caller).workingFrame = st.transformColorSpace (pfscopy caller) ∧
    pfscopy caller = caller ∧
    ((run st opts oxs term (construct st caller)).1).callerFrame = caller := by
  refine ⟨?_, ?_, ?_, ?_⟩
  · rfl
  · rfl
  · rfl
  · rw [run_callerFrame_eq]
    rfl

/-- C9: in `run`, a pregamma of exactly 1 skips `applyGammaOnFrame`
entirely, leaving the working frame unchanged by this step, while any other
pregamma value applies `applyGammaOnFrame` (this is the first processing
step of `run`, ahead of resize and tone mapping). -/
theorem pregamma_one_is_exact_noop (st : Stages) (opts : Options) (f : Frame) :
    (opts.pregamma = 1 → pregammaStage st opts f = Except.ok f) ∧
    (opts.pregamma ≠ 1 →
      pregammaStage st opts f = st.applyGammaOnFrame opts.pregamma f) := by
  constructor
  · intro h; simp [pregammaStage, h]
  · intro h; simp [pregammaStage, h]

/-- Witness for C9 at concrete inputs: pregamma 1 is the identity on the
working frame, pregamma 2 invokes the gamma routine. -/
theorem pregamma_one_is_exact_noop_witness :
    pregammaStage
        { applyGammaOnFrame := fun _ _ => Except.error Exc.otherExc
          resizeFrame := fun f _ => Except.ok f
          pfstmo_pattanaik00 := fun f => Except.ok f
          fromLDRPFStoQImage := fun f => Except.ok f
          transformColorSpace := fun f => f }
        ⟨1, 0⟩ ⟨[5]⟩ = Except.ok ⟨[5]⟩ ∧
    pregammaStage
        { applyGammaOnFrame := fun _ _ => Except.error Exc.otherExc
          resizeFrame := fun f _ => Except.ok f
          pfstmo_pattanaik00 := fun f => Except.ok f
          fromLDRPFStoQImage := fun f => Except.ok f
          transformColorSpace := fun f => f }
        ⟨2, 0⟩ ⟨[5]⟩ = Except.error Exc.otherExc := by
  constructor
  · exact (pregamma_one_is_exact_noop _ ⟨1, 0⟩ ⟨[5]⟩).1 rfl
  · exact (pregamma_one_is_exact_noop _ ⟨2, 0⟩ ⟨[5]⟩).2 (by norm_num)

/-- C10: the static counter starts at 0, each construction adds exactly 1,
destruction leaves it unchanged, so after any event sequence it equals the
number of constructions ever performed, grows monotonically, and (witnessed
by a construct-then-destruct trace) does not track live computations. -/
theorem counter_counts_total_constructions (evs : List Event) (e : Event) :
    counterAfter evs = (evs.filter (fun x => x = Event.construct)).length ∧
    counterAfter evs ≤ counterAfter (evs ++ [e]) ∧
    (counterAfter [Event.construct, Event.destruct] : ℤ) ≠
      liveAfter [Event.construct, Event.destruct] := by
  have key : ∀ (l : List Event) (n : ℕ),
      l.foldl counterStep n = n + (l.filter (fun x => x = Event.construct)).length := by
    intro l
    induction l with
    | nil => intro n; simp
    | cons a rest ih =>
      intro n
      cases a with
      | construct =>
        simp [counterStep, ih, List.filter_cons]
        omega
      | destruct => simp [counterStep, ih, List.filter_cons]
  refine ⟨?_, ?_, by decide⟩
  · unfold counterAfter
    rw [key evs 0]
    omega
  · unfold counterAfter
    rw [List.foldl_append, key evs 0, key [e] _]
    omega

/-- Recognizer for `tmo_error` signals, used to count error emissions. -/
def isTmoError : Signal → Bool
  | Signal.tmo_error _ => true
  | _ => false

/-- Stages that all succeed without changing the frame; a concrete
environment for witnesses. -/
def okStages : Stages :=
  { applyGammaOnFrame := fun _ f => Except.ok f
    resizeFrame := fun f _ => Except.ok f
    pfstmo_pattanaik00 := fun f => Except.ok f
    fromLDRPFStoQImage := fun f => Except.ok f
    transformColorSpace := fun f => f }

/-- Stages whose gamma pre-correction raises an exception; exercises the
code outside the `try` block of `run`. -/
def gammaThrowStages : Stages :=
  { okStages with applyGammaOnFrame := fun _ _ => Except.error Exc.otherExc }

/-- Stages whose tone-mapping core raises a `pfs::Exception`; exercises the
catch clauses of `run`. -/
def tmoThrowStages : Stages :=
  { okStages with
      pfstmo_pattanaik00 := fun _ => Except.error (Exc.pfsExc ("out of memory")) }

/-- C5: if termination has been requested by the time `run` reaches its
completion point (every stage succeeded and the poll at line 92 observes the
request), neither `imageComputed` nor `finished` is emitted and the working
frame has been released by `pfsio.freeFrame`. -/
theorem termination_suppresses_result (st : Stages) (opts : Options) (oxs : ℤ)
    (m : Mem) (f1 f2 f3 res : Frame)
    (h1 : pregammaStage st opts m.workingFrame = Except.ok f1)
    (h2 : resizeStage st opts oxs f1 = Except.ok f2)
    (h3 : st.pfstmo_pattanaik00 f2 = Except.ok f3)
    (h4 : st.fromLDRPFStoQImage f3 = Except.ok res) :
    Signal.imageComputed ∉ ((run st opts oxs true m).2).emitted ∧
    Signal.finished ∉ ((run st opts oxs true m).2).emitted ∧
    ((run st opts oxs true m).2).frameFreed = true := by
  unfold run
  simp only [h1, h2, h3, h4]
  simp

/-- Witness for C5: with all-identity stages and the termination flag set,
the run emits neither result signal and frees the frame. -/
theorem termination_suppresses_result_witness :
    Signal.imageComputed ∉ ((run okStages ⟨1, 0⟩ 0 true ⟨⟨[]⟩, ⟨[]⟩⟩).2).emitted ∧
    Signal.finished ∉ ((run okStages ⟨1, 0⟩ 0 true ⟨⟨[]⟩, ⟨[]⟩⟩).2).emitted ∧
    ((run okStages ⟨1, 0⟩ 0 true ⟨⟨[]⟩, ⟨[]⟩⟩).2).frameFreed = true :=
  termination_suppresses_result okStages ⟨1, 0⟩ 0 ⟨⟨[]⟩, ⟨[]⟩⟩ ⟨[]⟩ ⟨[]⟩ ⟨[]⟩ ⟨[]⟩
    rfl rfl rfl rfl

/-- C4 counterexample: an exception raised by the pregamma stage — a stage
invoked inside `run` but outside its `try` block — escapes `run` as a raw
fault with no `tmo_error` signal emitted, so the claim that *any* failing
stage is converted into exactly one textual error signal is false. -/
theorem gamma_stage_exception_escapes_run :
    ((run gammaThrowStages ⟨2, 0⟩ 0 false ⟨⟨[]⟩, ⟨[]⟩⟩).2).escaped =
        some Exc.otherExc ∧
    ((run gammaThrowStages ⟨2, 0⟩ 0 false ⟨⟨[]⟩, ⟨[]⟩⟩).2).emitted.filter
        isTmoError = [] := by
  constructor <;> rfl

/-- C4 (amended): whenever the tone-mapping stage `pfstmo_pattanaik00` — the
only stage guarded by the `try` block — raises an exception, `run` emits
exactly one `tmo_error` signal, emits neither `imageComputed` nor
`finished`, propagates no fault, and frees the working frame. -/
theorem tmo_exception_single_error_signal (st : Stages) (opts : Options)
    (oxs : ℤ) (term : Bool) (m : Mem) (f1 f2 : Frame) (e : Exc)
    (h1 : pregammaStage st opts m.workingFrame = Except.ok f1)
    (h2 : resizeStage st opts oxs f1 = Except.ok f2)
    (h3 : st.pfstmo_pattanaik00 f2 = Except.error e) :
    (((run st opts oxs term m).2).emitted.filter isTmoError).length = 1 ∧
    Signal.imageComputed ∉ ((run st opts oxs term m).2).emitted ∧
    Signal.finished ∉ ((run st opts oxs term m).2).emitted ∧
    ((run st opts oxs term m).2).escaped = none ∧
    ((run st opts oxs term m).2).frameFreed = true := by
  unfold run
  simp only [h1, h2, h3]
  cases e <;> simp [isTmoError]

/-- Witness for the amended C4: a `pfs::Exception` from the tone-mapping
core yields one `tmo_error`, no result signals, no escaped fault, and a
freed frame. -/
theorem tmo_exception_single_error_signal_witness :
    (((run tmoThrowStages ⟨1, 0⟩ 0 false ⟨⟨[]⟩, ⟨[]⟩⟩).2).emitted.filter
        isTmoError).length = 1 ∧
    Signal.imageComputed ∉ ((run tmoThrowStages ⟨1, 0⟩ 0 false ⟨⟨[]⟩, ⟨[]⟩⟩).2).emitted ∧
    Signal.finished ∉ ((run tmoThrowStages ⟨1, 0⟩ 0 false ⟨⟨[]⟩, ⟨[]⟩⟩).2).emitted ∧
    ((run tmoThrowStages ⟨1, 0⟩ 0 false ⟨⟨[]⟩, ⟨[]⟩⟩).2).escaped = none ∧
    ((run tmoThrowStages ⟨1, 0⟩ 0 false ⟨⟨[]⟩, ⟨[]⟩⟩).2).frameFreed = true :=
  tmo_exception_single_error_signal tmoThrowStages ⟨1, 0⟩ 0 false ⟨⟨[]⟩, ⟨[]⟩⟩
    ⟨[]⟩ ⟨[]⟩ (Exc.pfsExc ("out of memory")) rfl rfl rfl

end PattanaikTheorems

section DatmoTheorems

open Datmo

/-- Helper: an OK result of the estimator loop carries the accumulator
folded over every remaining scale — never a partial histogram. -/
theorem estimateAux_ok_total (contrib : ℕ → List ℚ) (p : Progress) (lMin delta : ℚ) :
    ∀ (remaining s : ℕ) (acc : List ℚ) (d : datmoConditionalDensity),
      estimateAux contrib p lMin delta remaining s acc = EstimateResult.ok d →
      d = ⟨(List.range' s remaining).foldl (fun a j => addHist a (contrib j)) acc,
        lMin, delta⟩ := by
  intro remaining
  induction remaining with
  | zero =>
    intro s acc d h
    unfold estimateAux at h
    simp only [EstimateResult.ok.injEq] at h
    simp [← h]
  | succ r ih =>
    intro s acc d h
    unfold estimateAux at h
    by_cases hc : cancelledAt p s = true
    · rw [if_pos hc] at h
      exact absurd h (by simp)
    · rw [if_neg hc] at h
      rw [List.range'_succ, List.foldl_cons]
      exact ih (s + 1) (addHist acc (contrib s)) d h

/-- C2: the conditional-density estimator returns either a fully constructed
density (the accumulation over all scales) or ABORTED and nothing else; a
cancellation visible at the first poll makes it return ABORTED immediately,
so no partially constructed density is ever visible to the caller. -/
theorem density_fully_constructed_or_aborted (nScales : ℕ) (contrib : ℕ → List ℚ)
    (lMin delta : ℚ) (p : Progress) :
    ((∃ d, datmo_compute_conditional_density nScales contrib lMin delta p =
        EstimateResult.ok d) ∨
      datmo_compute_conditional_density nScales contrib lMin delta p =
        EstimateResult.aborted) ∧
    (∀ d, datmo_compute_conditional_density nScales contrib lMin delta p =
        EstimateResult.ok d → d = fullDensity nScales contrib lMin delta) ∧
    (0 < nScales → cancelledAt p 0 = true →
      datmo_compute_conditional_density nScales contrib lMin delta p =
        EstimateResult.aborted) := by
  refine ⟨?_, ?_, ?_⟩
  · cases h : datmo_compute_conditional_density nScales contrib lMin delta p with
    | ok d => exact Or.inl ⟨d, rfl⟩
    | aborted => exact Or.inr rfl
  · intro d h
    have hd := estimateAux_ok_total contrib p lMin delta nScales 0 [] d h
    rw [hd]
    unfold fullDensity
    rw [List.range_eq_range']
  · intro hn hc
    unfold datmo_compute_conditional_density
    cases nScales with
    | zero => exact absurd hn (by simp)
    | succ r =>
      unfold estimateAux
      rw [if_pos hc]

/-- Witness for C2 at a concrete image: one scale contributing `[1]` gives
the full density `⟨[1], 0, 1⟩`, and a pre-requested cancellation yields
ABORTED. -/
theorem density_fully_constructed_or_aborted_witness :
    (⟨[1], 0, 1⟩ : datmoConditionalDensity) = fullDensity 1 (fun _ => [1]) 0 1 ∧
    datmo_compute_conditional_density 1 (fun _ => [1]) 0 1 ⟨some 0⟩ =
      EstimateResult.aborted := by
  constructor
  · exact (density_fully_constructed_or_aborted 1 (fun _ => [1]) 0 1 ⟨none⟩).2.1
      ⟨[1], 0, 1⟩ (by decide)
  · exact (density_fully_constructed_or_aborted 1 (fun _ => [1]) 0 1 ⟨some 0⟩).2.2
      (by decide) (by decide)

/-- C6: applying `datmo_apply_tone_curve_cc` with saturation factor 1 leaves
every pixel's chroma unchanged: in the log10 domain each channel's deviation
from luminance — the log of the channel-to-luminance ratio — is exactly the
input one, so saturation 1 is a no-op on chroma. -/
theorem saturation_one_preserves_chroma (tc : datmoToneCurve) (px : PixelLog) :
    (datmo_apply_tone_curve_cc tc 1 px).r - (datmo_apply_tone_curve_cc tc 1 px).l =
      px.r - px.l ∧
    (datmo_apply_tone_curve_cc tc 1 px).g - (datmo_apply_tone_curve_cc tc 1 px).l =
      px.g - px.l ∧
    (datmo_apply_tone_curve_cc tc 1 px).b - (datmo_apply_tone_curve_cc tc 1 px).l =
      px.b - px.l := by
  unfold datmo_apply_tone_curve_cc
  refine ⟨?_, ?_, ?_⟩ <;> simp

/-- Helper: the knot-wise sum of two scalings of the same curve is the
scaling by the summed coefficient. -/
theorem zipWith_add_map_mul (a b : ℚ) (cv : List ℚ) :
    List.zipWith (· + ·) (cv.map (fun y => a * y)) (cv.map (fun y => b * y)) =
      cv.map (fun y => (a + b) * y) := by
  induction cv with
  | nil => rfl
  | cons y rest ih =>
    simp only [List.map_cons, List.zipWith_cons_cons, ih, List.cons.injEq]
    exact ⟨by ring, trivial⟩

/-- Helper: the weighted sum over a window whose curves all equal `cv` is
`cv` scaled by the sum of the weights of exactly the curves present. -/
theorem weightedSum_const (w : ℕ → ℚ) (cv : List ℚ) :
    ∀ (cs : List (List ℚ)) (i : ℕ), cs ≠ [] → (∀ cu ∈ cs, cu = cv) →
      weightedSum w i cs =
        cv.map (fun y => (((List.range' i cs.length).map w).sum) * y) := by
  intro cs
  induction cs with
  | nil => intro i h; exact absurd rfl h
  | cons c rest ih =>
    intro i _ hall
    have hc : c = cv := hall c (by simp)
    cases rest with
    | nil =>
      subst hc
      simp [weightedSum, List.range'_succ]
    | cons c2 rest2 =>
      have hne : (c2 :: rest2) ≠ ([] : List (List ℚ)) := by simp
      have hall2 : ∀ cu ∈ c2 :: rest2, cu = cv := by
        intro cu hcu
        exact hall cu (List.mem_cons_of_mem c hcu)
      unfold weightedSum
      rw [ih (i + 1) hne hall2, hc, zipWith_add_map_mul]
      simp only [List.length_cons, List.range'_succ, List.map_cons, List.sum_cons]

/-- C7: the temporal coherence filter's window never holds more than
`DATMO_TF_TAPSIZE = 26` curves, and during warm-up (fewer than 26 frames
seen) `tfSmooth` is a proper weighted average renormalized over only the
available curves: a window of identical curves smooths to that very curve
(which would fail if the filter divided by the full-window weight sum). -/
theorem temporal_filter_capacity_and_warmup (st : TemporalFilter)
    (c cv : List ℚ) (w : ℕ → ℚ) :
    (tfPush st c).window.length ≤ DATMO_TF_TAPSIZE ∧
    (st.window.length < DATMO_TF_TAPSIZE → st.window ≠ [] →
      (∀ cu ∈ st.window, cu = cv) →
      ((List.range st.window.length).map w).sum ≠ 0 →
      tfSmooth w st = cv) := by
  constructor
  · exact List.length_take_le _ _
  · intro _ hne hall hW
    unfold tfSmooth
    rw [weightedSum_const w cv st.window 0 hne hall]
    rw [← List.range_eq_range'] at *
    rw [List.map_map]
    have : ∀ y ∈ cv,
        (((fun y => y / ((List.range st.window.length).map w).sum) ∘
          fun y => ((List.range st.window.length).map w).sum * y) y) = y := by
      intro y _
      simp only [Function.comp]
      exact mul_div_cancel_left₀ y hW
    rw [List.map_congr_left this]
    simp

/-- Witness for C7: a two-frame warm-up window holding the curve `[1, 2]`
twice, with unit weights, smooths to `[1, 2]` itself, and a push keeps the
window within 26 entries. -/
theorem temporal_filter_capacity_and_warmup_witness :
    (tfPush ⟨[[1, 2], [1, 2]]⟩ [3, 4]).window.length ≤ DATMO_TF_TAPSIZE ∧
    tfSmooth (fun _ => 1) ⟨[[1, 2], [1, 2]]⟩ = [1, 2] := by
  constructor
  · exact (temporal_filter_capacity_and_warmup ⟨[[1, 2], [1, 2]]⟩ [3, 4] [1, 2]
      (fun _ => 1)).1
  · exact (temporal_filter_capacity_and_warmup ⟨[[1, 2], [1, 2]]⟩ [3, 4] [1, 2]
      (fun _ => 1)).2 (by decide) (by decide) (by decide)
      (by norm_num [List.range_succ])

/-- Helper: the uniform knot grid is strictly increasing when the spacing is
positive. -/
theorem knotX_chain_lt (lMin delta : ℚ) (n : ℕ) (hd : 0 < delta) :
    List.Chain' (· < ·) (knotX lMin delta n) := by
  unfold knotX
  apply List.Pairwise.chain'
  rw [List.pairwise_map]
  refine (List.pairwise_lt_range n).imp ?_
  intro a b hab
  have hq : (a : ℚ) < b := by exact_mod_cast hab
  have := mul_lt_mul_of_pos_right hq hd
  linarith

/-- Helper: a cumulative-sum list always starts with its base value. -/
theorem cumsumFrom_eq_cons (rs : List ℚ) (y0 : ℚ) :
    ∃ t, cumsumFrom y0 rs = y0 :: t := by
  cases rs with
  | nil => exact ⟨[], rfl⟩
  | cons r rest => exact ⟨cumsumFrom (y0 + r) rest, rfl⟩

/-- Helper: cumulative sums of non-negative rises are non-decreasing. -/
theorem cumsumFrom_chain_le (rs : List ℚ) :
    ∀ y0 : ℚ, (∀ r ∈ rs, 0 ≤ r) → List.Chain' (· ≤ ·) (cumsumFrom y0 rs) := by
  induction rs with
  | nil => intro y0 _; simp [cumsumFrom]
  | cons r rest ih =>
    intro y0 hr
    rw [cumsumFrom, List.chain'_cons']
    constructor
    · intro b hb
      obtain ⟨t, ht⟩ := cumsumFrom_eq_cons rest (y0 + r)
      rw [ht] at hb
      simp only [List.head?_cons, Option.mem_def, Option.some.injEq] at hb
      have hr0 : 0 ≤ r := hr r (by simp)
      linarith [hb.symm]
    · exact ih (y0 + r) (fun x hx => hr x (List.mem_cons_of_mem r hx))

/-- Helper: every cumulative sum of non-negative rises lies between the base
value and the base value plus the total rise. -/
theorem cumsumFrom_mem_bounds (rs : List ℚ) :
    ∀ (y0 y : ℚ), (∀ r ∈ rs, 0 ≤ r) → y ∈ cumsumFrom y0 rs →
      y0 ≤ y ∧ y ≤ y0 + rs.sum := by
  induction rs with
  | nil =>
    intro y0 y _ hy
    simp only [cumsumFrom, List.mem_singleton] at hy
    simp [hy]
  | cons r rest ih =>
    intro y0 y hr hy
    have hr0 : 0 ≤ r := hr r (by simp)
    have hrest : ∀ x ∈ rest, 0 ≤ x := fun x hx => hr x (List.mem_cons_of_mem r hx)
    have hsum : 0 ≤ rest.sum := List.sum_nonneg hrest
    rw [cumsumFrom] at hy
    rcases List.mem_cons.1 hy with h | h
    · subst h
      constructor
      · exact le_refl y
      · simp only [List.sum_cons]
        linarith
    · have := ih (y0 + r) y hrest h
      simp only [List.sum_cons]
      constructor
      · linarith [this.1]
      · linarith [this.2]

/-- Helper: a cumulative-sum list has one more entry than its rise list. -/
theorem cumsumFrom_length (rs : List ℚ) :
    ∀ y0 : ℚ, (cumsumFrom y0 rs).length = rs.length + 1 := by
  induction rs with
  | nil => intro y0; rfl
  | cons r rest ih => intro y0; simp [cumsumFrom, ih]

/-- Helper: raw slopes are clamped non-negative. -/
theorem rawSlopes_nonneg (cd : datmoConditionalDensity) (ds : DisplaySize)
    (enh : ℚ) : ∀ s ∈ rawSlopes cd ds enh, 0 ≤ s := by
  intro s hs
  unfold rawSlopes at hs
  obtain ⟨h, _, rfl⟩ := List.mem_map.1 hs
  exact le_max_left 0 _

/-- Helper: sum of a constant right-multiple. -/
theorem sum_map_mul_const (l : List ℚ) (a : ℚ) :
    (l.map (fun s => s * a)).sum = l.sum * a := by
  induction l with
  | nil => simp
  | cons x rest ih =>
    simp only [List.map_cons, List.sum_cons, ih]
    ring

/-- Helper: budget scaling keeps slopes non-negative. -/
theorem scaleSlopes_nonneg (ss : List ℚ) (delta B : ℚ)
    (hss : ∀ s ∈ ss, 0 ≤ s) (hB : 0 ≤ B) :
    ∀ s ∈ scaleSlopes ss delta B, 0 ≤ s := by
  intro s hs
  unfold scaleSlopes at hs
  by_cases hT : delta * ss.sum ≤ B
  · rw [if_pos hT] at hs
    exact hss s hs
  · rw [if_neg hT] at hs
    obtain ⟨x, hx, rfl⟩ := List.mem_map.1 hs
    have hT0 : 0 < delta * ss.sum := lt_of_le_of_lt hB (lt_of_not_le hT)
    exact mul_nonneg (hss x hx) (div_nonneg hB (le_of_lt hT0))

/-- Helper: after budget scaling the total rise `delta · Σ s` never exceeds
the display's usable log-luminance range. -/
theorem scaleSlopes_budget (ss : List ℚ) (delta B : ℚ) (hB : 0 ≤ B) :
    delta * (scaleSlopes ss delta B).sum ≤ B := by
  unfold scaleSlopes
  by_cases hT : delta * ss.sum ≤ B
  · rw [if_pos hT]
    exact hT
  · rw [if_neg hT]
    have hT0 : 0 < delta * ss.sum := lt_of_le_of_lt hB (lt_of_not_le hT)
    have hne : delta * ss.sum ≠ 0 := ne_of_gt hT0
    rw [sum_map_mul_const, ← mul_assoc]
    have heq : delta * ss.sum * (B / (delta * ss.sum)) = B := by
      field_simp
    rw [heq]

/-- Helper: budget scaling preserves the number of segments. -/
theorem scaleSlopes_length (ss : List ℚ) (delta B : ℚ) :
    (scaleSlopes ss delta B).length = ss.length := by
  unfold scaleSlopes
  by_cases hT : delta * ss.sum ≤ B
  · rw [if_pos hT]
  · rw [if_neg hT, List.length_map]

/-- Helper: the unanchored curve's knot abscissae count. -/
theorem unanchoredCurve_x_length (cd : datmoConditionalDensity)
    (df : DisplayFunction) (ds : DisplaySize) (enh : ℚ) :
    (unanchoredCurve cd df ds enh).x_i.length = cd.hist.length + 1 := by
  unfold unanchoredCurve knotX
  rw [List.length_map, List.length_range]

/-- Helper: the unanchored curve's knot ordinates count. -/
theorem unanchoredCurve_y_length (cd : datmoConditionalDensity)
    (df : DisplayFunction) (ds : DisplaySize) (enh : ℚ) :
    (unanchoredCurve cd df ds enh).y_i.length = cd.hist.length + 1 := by
  unfold unanchoredCurve
  rw [cumsumFrom_length, List.length_map, scaleSlopes_length]
  unfold rawSlopes
  rw [List.length_map]

/-- Helper: the per-segment rises of the unanchored curve are non-negative
when the knot spacing is positive and the display range is sane. -/
theorem unanchoredCurve_rises_nonneg (cd : datmoConditionalDensity)
    (df : DisplayFunction) (ds : DisplaySize) (enh : ℚ)
    (hd : 0 < cd.delta) (hb : df.l_black ≤ df.l_max) :
    ∀ r ∈ (scaleSlopes (rawSlopes cd ds enh) cd.delta
        (df.l_max - df.l_black)).map (fun s => s * cd.delta), 0 ≤ r := by
  intro r hr
  obtain ⟨s, hs, rfl⟩ := List.mem_map.1 hr
  have h0 := scaleSlopes_nonneg (rawSlopes cd ds enh) cd.delta
    (df.l_max - df.l_black) (rawSlopes_nonneg cd ds enh) (by linarith) s hs
  exact mul_nonneg h0 (le_of_lt hd)

/-- Helper: the unanchored curve is monotone and bounded by the display's
log-luminance range. -/
theorem unanchoredCurve_invariants (cd : datmoConditionalDensity)
    (df : DisplayFunction) (ds : DisplaySize) (enh : ℚ)
    (hd : 0 < cd.delta) (hb : df.l_black ≤ df.l_max) :
    List.Chain' (· < ·) (unanchoredCurve cd df ds enh).x_i ∧
    List.Chain' (· ≤ ·) (unanchoredCurve cd df ds enh).y_i ∧
    ∀ y ∈ (unanchoredCurve cd df ds enh).y_i,
      df.l_black ≤ y ∧ y ≤ df.l_max := by
  refine ⟨knotX_chain_lt cd.lMin cd.delta _ hd, ?_, ?_⟩
  · exact cumsumFrom_chain_le _ df.l_black
      (unanchoredCurve_rises_nonneg cd df ds enh hd hb)
  · intro y hy
    have hbounds := cumsumFrom_mem_bounds _ df.l_black y
      (unanchoredCurve_rises_nonneg cd df ds enh hd hb) hy
    refine ⟨hbounds.1, ?_⟩
    have hbudget : cd.delta * (scaleSlopes (rawSlopes cd ds enh) cd.delta
        (df.l_max - df.l_black)).sum ≤ df.l_max - df.l_black :=
      scaleSlopes_budget _ _ _ (by linarith)
    have hsum : ((scaleSlopes (rawSlopes cd ds enh) cd.delta
        (df.l_max - df.l_black)).map (fun s => s * cd.delta)).sum =
        (scaleSlopes (rawSlopes cd ds enh) cd.delta
          (df.l_max - df.l_black)).sum * cd.delta := sum_map_mul_const _ _
    have h2 := hbounds.2
    rw [hsum] at h2
    have : (scaleSlopes (rawSlopes cd ds enh) cd.delta
        (df.l_max - df.l_black)).sum * cd.delta ≤ df.l_max - df.l_black := by
      calc (scaleSlopes (rawSlopes cd ds enh) cd.delta
          (df.l_max - df.l_black)).sum * cd.delta
          = cd.delta * (scaleSlopes (rawSlopes cd ds enh) cd.delta
            (df.l_max - df.l_black)).sum := by ring
        _ ≤ df.l_max - df.l_black := hbudget
    linarith

/-- Helper: the anchoring pass preserves the number of ordinates. -/
theorem anchorGo_length (k : ℕ) (lmax : ℚ) :
    ∀ (ys : List ℚ) (i : ℕ), (anchorGo k lmax i ys).length = ys.length := by
  intro ys
  induction ys with
  | nil => intro i; rfl
  | cons y rest ih => intro i; simp [anchorGo, ih]

/-- Helper: the anchoring pass preserves monotonicity of the ordinates. -/
theorem anchorGo_chain (k : ℕ) (lmax : ℚ) :
    ∀ (ys : List ℚ) (i : ℕ), List.Chain' (· ≤ ·) ys →
      List.Chain' (· ≤ ·) (anchorGo k lmax i ys) := by
  intro ys
  induction ys with
  | nil => intro i _; simp [anchorGo]
  | cons y rest ih =>
    intro i h
    rw [anchorGo, List.chain'_cons']
    constructor
    · intro b hb
      cases rest with
      | nil => simp [anchorGo] at hb
      | cons y2 rest2 =>
        rw [anchorGo] at hb
        simp only [List.head?_cons, Option.mem_def, Option.some.injEq] at hb
        have hyy2 : y ≤ y2 := (List.chain'_cons.1 h).1
        rw [← hb]
        by_cases hki : k ≤ i
        · rw [if_pos hki, if_pos (le_trans hki (Nat.le_succ i))]
        · rw [if_neg hki]
          by_cases hki2 : k ≤ i + 1
          · rw [if_pos hki2]
            exact min_le_right y lmax
          · rw [if_neg hki2]
            exact min_le_min hyy2 (le_refl lmax)
    · exact ih (i + 1) (List.Chain'.tail h)

/-- Helper: the anchoring pass keeps every ordinate inside the display's
log-luminance range. -/
theorem anchorGo_mem_bounds (k : ℕ) (lmax lb : ℚ) (hblm : lb ≤ lmax) :
    ∀ (ys : List ℚ) (i : ℕ), (∀ y ∈ ys, lb ≤ y) →
      ∀ z ∈ anchorGo k lmax i ys, lb ≤ z ∧ z ≤ lmax := by
  intro ys
  induction ys with
  | nil => intro i _ z hz; simp [anchorGo] at hz
  | cons y rest ih =>
    intro i hys z hz
    rw [anchorGo] at hz
    rcases List.mem_cons.1 hz with h | h
    · subst h
      by_cases hki : k ≤ i
      · rw [if_pos hki]
        exact ⟨hblm, le_refl lmax⟩
      · rw [if_neg hki]
        refine ⟨le_min (hys y (by simp)) hblm, min_le_right y lmax⟩
    · exact ih (i + 1) (fun x hx => hys x (List.mem_cons_of_mem y hx)) z h

/-- Helper: the ordinate produced at position `j` by the anchoring pass. -/
theorem anchorGo_getD (k : ℕ) (lmax : ℚ) :
    ∀ (ys : List ℚ) (i j : ℕ), j < ys.length →
      (anchorGo k lmax i ys).getD j 0 =
        if k ≤ i + j then lmax else min (ys.getD j 0) lmax := by
  intro ys
  induction ys with
  | nil => intro i j hj; simp at hj
  | cons y rest ih =>
    intro i j hj
    cases j with
    | zero => simp [anchorGo]
    | succ j2 =>
      rw [anchorGo]
      simp only [List.getD_cons_succ]
      rw [ih (i + 1) j2 (by simpa using Nat.lt_of_succ_lt_succ hj)]
      have : i + 1 + j2 = i + (j2 + 1) := by omega
      rw [this]

/-- Helper: the nearest-knot index is a valid index of a non-empty knot
list. -/
theorem nearestIdx_lt_length (xs : List ℚ) (t : ℚ) (hxs : xs ≠ []) :
    nearestIdx xs t < xs.length := by
  unfold nearestIdx
  cases h : (List.range xs.length).argmin (fun i => |xs.getD i 0 - t|) with
  | none =>
    exfalso
    have := List.argmin_eq_none.1 h
    rw [List.range_eq_nil] at this
    exact hxs (List.length_eq_zero.1 this)
  | some a =>
    have ha : a ∈ List.range xs.length := List.argmin_mem h
    simpa using List.mem_range.1 ha

/-- C1: every tone curve produced by `datmo_compute_tone_curve` with an OK
result has strictly increasing knot abscissae, non-decreasing ordinates, and
all ordinates within the display's `[log10 black_level, log10
max_luminance]` range. -/
theorem tone_curve_ok_invariants (cd : datmoConditionalDensity)
    (df : DisplayFunction) (ds : DisplaySize) (enh white_y : ℚ)
    (lg : ℚ → ℚ) (p : Progress) (tc : datmoToneCurve)
    (h : datmo_compute_tone_curve cd df ds enh white_y lg p = TmoResult.ok tc) :
    List.Chain' (· < ·) tc.x_i ∧ List.Chain' (· ≤ ·) tc.y_i ∧
    ∀ y ∈ tc.y_i, df.l_black ≤ y ∧ y ≤ df.l_max := by
  unfold datmo_compute_tone_curve at h
  by_cases hc : cancelledAt p 0 = true
  · rw [if_pos hc] at h
    exact absurd h (by simp)
  · rw [if_neg hc] at h
    by_cases hdeg : cd.delta ≤ 0 ∨ df.l_max < df.l_black
    · rw [if_pos hdeg] at h
      exact absurd h (by simp)
    · rw [if_neg hdeg] at h
      push_neg at hdeg
      obtain ⟨hd, hb⟩ := hdeg
      have hu := unanchoredCurve_invariants cd df ds enh hd hb
      by_cases hw : white_y = -1
      · rw [if_pos hw] at h
        simp only [TmoResult.ok.injEq] at h
        rw [← h]
        exact hu
      · rw [if_neg hw] at h
        simp only [TmoResult.ok.injEq] at h
        rw [← h]
        refine ⟨hu.1, ?_, ?_⟩
        · exact anchorGo_chain _ df.l_max _ 0 hu.2.1
        · intro y hy
          exact anchorGo_mem_bounds _ df.l_max df.l_black hb _ 0
            (fun x hx => (hu.2.2 x hx).1) y hy

/-- C3: a white anchor of `-1` means no anchor constraint is applied — the
OK result is exactly the unanchored curve; for every other white anchor
value, the knot nearest `log10(white_y)` is pinned to the display's maximum
log luminance. -/
theorem white_anchor_pins_nearest_knot (cd : datmoConditionalDensity)
    (df : DisplayFunction) (ds : DisplaySize) (enh white_y : ℚ)
    (lg : ℚ → ℚ) (p : Progress) :
    (white_y = -1 → ∀ tc,
      datmo_compute_tone_curve cd df ds enh white_y lg p = TmoResult.ok tc →
      tc = unanchoredCurve cd df ds enh) ∧
    (white_y ≠ -1 → ∀ tc,
      datmo_compute_tone_curve cd df ds enh white_y lg p = TmoResult.ok tc →
      tc.y_i.getD (nearestIdx tc.x_i (lg white_y)) 0 = df.l_max) := by
  constructor
  · intro hw tc h
    unfold datmo_compute_tone_curve at h
    by_cases hc : cancelledAt p 0 = true
    · rw [if_pos hc] at h
      exact absurd h (by simp)
    · rw [if_neg hc] at h
      by_cases hdeg : cd.delta ≤ 0 ∨ df.l_max < df.l_black
      · rw [if_pos hdeg] at h
        exact absurd h (by simp)
      · rw [if_neg hdeg, if_pos hw] at h
        simp only [TmoResult.ok.injEq] at h
        exact h.symm
  · intro hw tc h
    unfold datmo_compute_tone_curve at h
    by_cases hc : cancelledAt p 0 = true
    · rw [if_pos hc] at h
      exact absurd h (by simp)
    · rw [if_neg hc] at h
      by_cases hdeg : cd.delta ≤ 0 ∨ df.l_max < df.l_black
      · rw [if_pos hdeg] at h
        exact absurd h (by simp)
      · rw [if_neg hdeg, if_neg hw] at h
        simp only [TmoResult.ok.injEq] at h
        rw [← h]
        have hxne : (unanchoredCurve cd df ds enh).x_i ≠ [] := by
          intro hnil
          have := unanchoredCurve_x_length cd df ds enh
          rw [hnil] at this
          simp at this
        have hk := nearestIdx_lt_length (unanchoredCurve cd df ds enh).x_i
          (lg white_y) hxne
        rw [unanchoredCurve_x_length] at hk
        unfold applyAnchor
        rw [anchorGo_getD _ df.l_max _ 0 _
          (by rw [unanchoredCurve_y_length]; exact hk)]
        simp

/-- Witness for C1: a one-bin density over `[0, 1]` on a display with log
range `[0, 2]` yields the OK curve `x = [0, 1]`, `y = [0, 1]`, which is
strictly increasing in `x`, non-decreasing in `y`, and inside the range. -/
theorem tone_curve_ok_invariants_witness :
    List.Chain' (· < ·) (datmoToneCurve.mk [0, 1] [0, 1]).x_i ∧
    List.Chain' (· ≤ ·) (datmoToneCurve.mk [0, 1] [0, 1]).y_i ∧
    ∀ y ∈ (datmoToneCurve.mk [0, 1] [0, 1]).y_i,
      (DisplayFunction.mk 0 2).l_black ≤ y ∧ y ≤ (DisplayFunction.mk 0 2).l_max :=
  tone_curve_ok_invariants ⟨[1], 0, 1⟩ ⟨0, 2⟩ ⟨1⟩ 1 (-1) id ⟨none⟩
    ⟨[0, 1], [0, 1]⟩
    (by norm_num [datmo_compute_tone_curve, unanchoredCurve, knotX, rawSlopes,
      scaleSlopes, cumsumFrom, cancelledAt, List.range_succ])

/-- Witness for C3: with the anchor disabled (`white_y = -1`) the OK result
is the unanchored curve; with `white_y = 4` on a single-knot curve the knot
nearest `log10 4` is pinned to the display's maximum log luminance 2. -/
theorem white_anchor_pins_nearest_knot_witness :
    datmoToneCurve.mk [0, 1] [0, 1] = unanchoredCurve ⟨[1], 0, 1⟩ ⟨0, 2⟩ ⟨1⟩ 1 ∧
    (datmoToneCurve.mk [0] [2]).y_i.getD
        (nearestIdx (datmoToneCurve.mk [0] [2]).x_i (id 4)) 0 =
      (DisplayFunction.mk 0 2).l_max := by
  constructor
  · exact (white_anchor_pins_nearest_knot ⟨[1], 0, 1⟩ ⟨0, 2⟩ ⟨1⟩ 1 (-1) id
      ⟨none⟩).1 rfl ⟨[0, 1], [0, 1]⟩
      (by norm_num [datmo_compute_tone_curve, unanchoredCurve, knotX, rawSlopes,
        scaleSlopes, cumsumFrom, cancelledAt, List.range_succ])
  · exact (white_anchor_pins_nearest_knot ⟨[], 0, 1⟩ ⟨0, 2⟩ ⟨1⟩ 1 4 id
      ⟨none⟩).2 (by norm_num) ⟨[0], [2]⟩
      (by norm_num [datmo_compute_tone_curve, unanchoredCurve, knotX, rawSlopes,
        scaleSlopes, cumsumFrom, cancelledAt, applyAnchor, anchorGo, nearestIdx,
        List.argmin, List.argAux, List.range_succ])

end DatmoTheorems

